import Mathlib

/-!
Verification of the chunked feed exporter (`scrapylib/chunkexports.py`).

The development shallowly embeds `ChunkedFeedExporter`:
* Scrapy settings objects are association lists of `SVal` (a Python value:
  `None`, an int, or a string), and the mutable settings objects live in a
  `Heap` so that in-place mutation and `copy.deepcopy` are observable.
* The exporter object's attributes form `ExporterState`; the parent
  `FeedExporter`'s slot (`slot.itemcount`, the items written to the currently
  open feed, the closed feed files) is folded into the same state, following
  the spec's description of the external sink collaborator (open/write/close,
  per-slot item count).
* `item_scraped`, `_reset_exporter`, `get_uri_parameters`, `__init__` and the
  two settings helpers are translated function by function from the source.
-/

namespace ChunkExports

/-- A Python value as stored in a Scrapy settings object: `None`, an integer,
or a string. -/
inductive SVal where
  | vnone : SVal
  | vint : Int → SVal
  | vstr : String → SVal
deriving DecidableEq, Repr

/-- Python truthiness for `SVal`: `None`, `0` and `""` are falsy, everything
else is truthy.  This is the test performed by `if not value` in
`_get_from_settings_or_not_configured`. -/
def SVal.truthy : SVal → Bool
  | .vnone => false
  | .vint i => i != 0
  | .vstr s => s != ""

/-- Python 2 semantics of `itemcount >= v` for a nonnegative int `itemcount`
and an `SVal` `v`: ints compare numerically, `None` is smaller than every
int, and every int is smaller than every string. -/
def pyGe (n : Nat) : SVal → Bool
  | .vnone => true
  | .vint i => decide (i ≤ (n : Int))
  | .vstr _ => false

/-- A settings object / parameter dict: an association list from keys to
`SVal`. -/
abbrev Settings := List (String × SVal)

/-- Dictionary lookup: the value bound to the first occurrence of a key. -/
def lookupKey {β : Type} : List (String × β) → String → Option β
  | [], _ => none
  | (k, v) :: rest, name => if k = name then some v else lookupKey rest name

/-- `settings.get(name, default)`. -/
def Settings.get (s : Settings) (name : String) (default : SVal) : SVal :=
  match lookupKey s name with
  | some v => v
  | none => default

/-- `settings.set(name, value)` / `d[name] = value`: in-place update of one
key (the priority argument of Scrapy's `Settings.set` is dropped: the copied
settings object is fresh, so the priority-100 write always takes effect). -/
def Settings.set (s : Settings) (name : String) (value : SVal) : Settings :=
  (name, value) :: s.filter (fun p => p.1 != name)

/-- The heap of mutable settings objects; a reference is an index. -/
abbrev Heap := List Settings

/-- Dereference a settings object. -/
def Heap.getRef (h : Heap) (r : Nat) : Settings :=
  h.getD r []

/-- Overwrite the settings object behind a reference. -/
def Heap.setRef (h : Heap) (r : Nat) (s : Settings) : Heap :=
  h.set r s

/-- `copy.deepcopy(settings)`: allocate a fresh object holding the same
entries and return its reference. -/
def deepcopy (h : Heap) (r : Nat) : Heap × Nat :=
  (h ++ [h.getRef r], h.length)

/-- `DEFAULT_TIMESTAMP_FORMAT` from the source. -/
def DEFAULT_TIMESTAMP_FORMAT : String := "%Y-%m-%d-%H"

/-- The `ChunkedFeedExporter` object: its own attributes
(`_items_per_chunk`, `_chunk_number`, `_timestamp_format`, `_scrapy_job`,
`_scrapy_project`, `_scrapy_project_id`) together with the parent
`FeedExporter` slot state (`itemcount`, the records written to the open
feed) and the feed files already closed, each recorded as
(chunk number at open time, records written to it). -/
structure ExporterState (α : Type) where
  itemsPerChunk : SVal
  chunkNumber : Nat
  timestampFormat : SVal
  scrapyJob : SVal
  scrapyProject : SVal
  scrapyProjectId : SVal
  itemcount : Nat
  currentChunk : List α
  closedChunks : List (Nat × List α)
deriving DecidableEq, Repr

/-- The rotation test of `item_scraped`:
`self._items_per_chunk and self.slot.itemcount >= self._items_per_chunk`. -/
def rotationDue (s : ExporterState α) : Bool :=
  s.itemsPerChunk.truthy && pyGe s.itemcount s.itemsPerChunk

/-- `_reset_exporter`: `close_spider` closes the open slot (emitting the
feed file for the chunk number it was opened under), `_chunk_number` is
incremented, `open_spider` opens a fresh slot with `itemcount = 0`. -/
def resetExporter (s : ExporterState α) : ExporterState α :=
  { s with
    closedChunks := s.closedChunks ++ [(s.chunkNumber, s.currentChunk)]
    chunkNumber := s.chunkNumber + 1
    itemcount := 0
    currentChunk := [] }

/-- `item_scraped`: rotate first when the threshold is reached, then the
parent `FeedExporter.item_scraped` writes the item to the open slot and
increments `slot.itemcount`. -/
def item_scraped (s : ExporterState α) (item : α) : ExporterState α :=
  let s' := if rotationDue s then resetExporter s else s
  { s' with
    currentChunk := s'.currentChunk ++ [item]
    itemcount := s'.itemcount + 1 }

/-- Deliver a whole stream of records, one `item_scraped` call each. -/
def processAll (s : ExporterState α) (items : List α) : ExporterState α :=
  items.foldl item_scraped s

/-- The final `close_spider` at the end of the run: closes the still-open
slot, emitting its feed file (the Scrapy exporter always produces the file,
even when zero items were written to the slot).  The result is the full
run output: every chunk, tagged with its chunk number, in close order. -/
def closeSpider (s : ExporterState α) : List (Nat × List α) :=
  s.closedChunks ++ [(s.chunkNumber, s.currentChunk)]

/-- The exporter state right after `open_spider`: `_chunk_number = 1`
(set in `__init__`), a fresh slot with `itemcount = 0`, nothing closed.
The identity attributes are left at their sentinel defaults; the run
semantics never reads them. -/
def initialState (ipc : SVal) : ExporterState α :=
  { itemsPerChunk := ipc
    chunkNumber := 1
    timestampFormat := .vstr DEFAULT_TIMESTAMP_FORMAT
    scrapyJob := .vstr "nojob"
    scrapyProject := .vstr "noproject"
    scrapyProjectId := .vstr "noprojectid"
    itemcount := 0
    currentChunk := []
    closedChunks := [] }

/-- A complete run: open, deliver every record, final close.  Returns the
chunks produced, each as (chunk number, records), in production order. -/
def runExport (ipc : SVal) (items : List α) : List (Nat × List α) :=
  closeSpider (processAll (initialState ipc) items)

/-- `_get_from_settings_or_not_configured`: read the setting and raise
`NotConfigured` (modelled as `Except.error ()`) when the value is falsy. -/
def getFromSettingsOrNotConfigured (s : Settings) (name : String)
    (default : SVal) : Except Unit SVal :=
  let value := Settings.get s name default
  if value.truthy then .ok value else .error ()

/-- `_get_from_settings_or_environ`: the setting if present, else the
environment variable, else the sentinel default string. -/
def settingsOrEnviron (s : Settings) (environ : List (String × String))
    (name : String) (default : String) : SVal :=
  Settings.get s name (.vstr ((lookupKey environ name).getD default))

/-- `ChunkedFeedExporter.__init__`: deep-copy the caller's settings, gate
the three chunked settings through `_get_from_settings_or_not_configured`,
override `FEED_URI` / `FEED_FORMAT` on the copy, then record
`_chunk_number = 1`, `_timestamp_format` and the three identity values
from the (overridden) copy or the environment.  `NotConfigured` aborts
construction before any slot is opened. -/
def initExporter (h : Heap) (callerRef : Nat)
    (environ : List (String × String)) :
    Except Unit (Heap × ExporterState α) :=
  let h1 := (deepcopy h callerRef).1
  let rCopy := (deepcopy h callerRef).2
  let settings := Heap.getRef h1 rCopy
  match getFromSettingsOrNotConfigured settings "CHUNKED_FEED_URI" .vnone with
  | .error e => .error e
  | .ok chunked_feed_uri =>
    match getFromSettingsOrNotConfigured settings "CHUNKED_FEED_FORMAT" .vnone with
    | .error e => .error e
    | .ok chunked_feed_format =>
      match getFromSettingsOrNotConfigured settings "CHUNKED_FEED_ITEMS_PER_CHUNK" .vnone with
      | .error e => .error e
      | .ok items_per_chunk =>
        let settings2 :=
          Settings.set (Settings.set settings "FEED_URI" chunked_feed_uri)
            "FEED_FORMAT" chunked_feed_format
        let h2 := Heap.setRef h1 rCopy settings2
        .ok (h2,
          { itemsPerChunk := items_per_chunk
            chunkNumber := 1
            timestampFormat :=
              Settings.get settings2 "CHUNKED_FEED_TIMESTAMP_FORMAT"
                (.vstr DEFAULT_TIMESTAMP_FORMAT)
            scrapyJob := settingsOrEnviron settings2 environ "SCRAPY_JOB" "nojob"
            scrapyProject :=
              settingsOrEnviron settings2 environ "SCRAPY_PROJECT" "noproject"
            scrapyProjectId :=
              settingsOrEnviron settings2 environ "SCRAPY_PROJECT_ID" "noprojectid"
            itemcount := 0
            currentChunk := []
            closedChunks := [] })

/-- Whether construction succeeded (no `NotConfigured`). -/
def exceptIsOk : Except ε β → Bool
  | .ok _ => true
  | .error _ => false

/-- `get_uri_parameters`: `params.update({...})` with the current chunk
number, the identity values, and the timestamp.  `strftime` stands for
`datetime.utcnow().strftime` (the current UTC time is baked into it); the
source passes it the literal `"%Y-%m-%d-%H"`, not `self._timestamp_format`. -/
def get_uri_parameters (strftime : String → String) (s : ExporterState α)
    (params : Settings) : Settings :=
  [(("chunk_number" : String), SVal.vint (s.chunkNumber : Int)),
   ("scrapy_job", s.scrapyJob),
   ("scrapy_project_id", s.scrapyProjectId),
   ("timestamp", SVal.vstr (strftime "%Y-%m-%d-%H"))].foldl
    (fun acc kv => Settings.set acc kv.1 kv.2) params

/-- A pre-parsed URI template: literal pieces and named placeholders.
Modelled from the spec: the URI Template Resolver itself (the `%`-style
substitution Scrapy applies to the feed URI) is not part of this
repository's source; the spec describes it as a pure substitution over the
recognized placeholders, failing on an unrecognized one. -/
inductive TemplatePiece where
  | lit : String → TemplatePiece
  | param : String → TemplatePiece
deriving DecidableEq, Repr

/-- Render an `SVal` into a URI fragment. -/
def SVal.render : SVal → String
  | .vnone => "None"
  | .vint i => toString i
  | .vstr s => s

/-- Modelled from the spec: `resolve(template, params)` substitutes each
placeholder with the rendered parameter value and fails on a placeholder
missing from the mapping. -/
def resolve (template : List TemplatePiece) (params : Settings) :
    Except Unit String :=
  match template with
  | [] => .ok ""
  | .lit s :: rest =>
    match resolve rest params with
    | .ok t => .ok (s ++ t)
    | .error e => .error e
  | .param name :: rest =>
    match lookupKey params name with
    | none => .error ()
    | some v =>
      match resolve rest params with
      | .ok t => .ok (v.render ++ t)
      | .error e => .error e

/-! ### Chunking helpers

`chunkAux t cur xs` is the sequence of chunk contents the exporter produces
when the open chunk already holds `cur` and the records `xs` are still to
arrive; `numberFrom k` tags consecutive chunks with consecutive numbers.
These recursions mirror the fold of `item_scraped` and are related to it by
`closeSpider_processAll`. -/

/-- Chunk contents produced from an open chunk `cur` and remaining input. -/
def chunkAux (t : Nat) (cur : List α) : List α → List (List α)
  | [] => [cur]
  | x :: xs =>
    if t ≤ cur.length then cur :: chunkAux t [x] xs
    else chunkAux t (cur ++ [x]) xs

/-- Tag consecutive elements with consecutive numbers starting at `k`. -/
def numberFrom (k : Nat) : List (List α) → List (Nat × List α)
  | [] => []
  | c :: cs => (k, c) :: numberFrom (k + 1) cs

theorem chunkAux_ne_nil (t : Nat) (cur : List α) (xs : List α) :
    chunkAux t cur xs ≠ [] := by
  induction xs generalizing cur with
  | nil => simp [chunkAux]
  | cons x xs ih =>
    rw [chunkAux]
    split
    · simp
    · exact ih (cur ++ [x])

theorem numberFrom_append (k : Nat) (cs ds : List (List α)) :
    numberFrom k (cs ++ ds) = numberFrom k cs ++ numberFrom (k + cs.length) ds := by
  induction cs generalizing k with
  | nil => simp [numberFrom]
  | cons c cs ih =>
    simp only [List.cons_append, numberFrom, List.length_cons, List.append_eq]
    rw [ih]
    have h1 : k + (cs.length + 1) = k + 1 + cs.length := by omega
    rw [h1]

theorem map_fst_numberFrom (k : Nat) (cs : List (List α)) :
    (numberFrom k cs).map Prod.fst = List.range' k cs.length := by
  induction cs generalizing k with
  | nil => simp [numberFrom]
  | cons c cs ih =>
    simp only [numberFrom, List.map_cons, List.length_cons, List.range'_succ, ih]

theorem map_snd_numberFrom (k : Nat) (cs : List (List α)) :
    (numberFrom k cs).map Prod.snd = cs := by
  induction cs generalizing k with
  | nil => simp [numberFrom]
  | cons c cs ih => simp [numberFrom, ih]

theorem length_numberFrom (k : Nat) (cs : List (List α)) :
    (numberFrom k cs).length = cs.length := by
  induction cs generalizing k with
  | nil => simp [numberFrom]
  | cons c cs ih => simp [numberFrom, ih]

theorem chunkAux_cons (t : Nat) (cur : List α) (x : α) (xs : List α) :
    chunkAux t cur (x :: xs) =
      if t ≤ cur.length then cur :: chunkAux t [x] xs
      else chunkAux t (cur ++ [x]) xs := by
  rw [chunkAux]

/-- Simulation: delivering `xs` from a state whose slot count matches its
open chunk and whose threshold is the integer `t ≥ 1`, then closing,
produces the already-closed chunks followed by the chunks of `chunkAux`,
numbered consecutively from the current chunk number. -/
theorem closeSpider_processAll (t : Nat) (ht : 1 ≤ t) (xs : List α) :
    ∀ s : ExporterState α, s.itemsPerChunk = .vint (t : Int) →
    s.itemcount = s.currentChunk.length →
    closeSpider (processAll s xs) =
      s.closedChunks ++ numberFrom s.chunkNumber (chunkAux t s.currentChunk xs) := by
  induction xs with
  | nil =>
    intro s hipc hcount
    simp [processAll, closeSpider, chunkAux, numberFrom]
  | cons x xs ih =>
    intro s hipc hcount
    have hstep : processAll s (x :: xs) = processAll (item_scraped s x) xs := rfl
    rw [hstep]
    by_cases hc : t ≤ s.currentChunk.length
    · have hrot : rotationDue s = true := by
        simp only [rotationDue, hipc, SVal.truthy, pyGe, hcount, Bool.and_eq_true,
          bne_iff_ne, ne_eq, decide_eq_true_eq]
        constructor
        · intro h0
          have ht0 : t = 0 := by exact_mod_cast h0
          omega
        · exact_mod_cast hc
      have heq : item_scraped s x =
          { s with chunkNumber := s.chunkNumber + 1, itemcount := 1,
                   currentChunk := [x],
                   closedChunks := s.closedChunks ++ [(s.chunkNumber, s.currentChunk)] } := by
        simp [item_scraped, hrot, resetExporter]
      rw [heq, ih _ (by simp [hipc]) (by simp)]
      rw [chunkAux_cons, if_pos hc, numberFrom]
      simp [List.append_assoc]
    · have hrot : rotationDue s = false := by
        simp only [rotationDue, hipc, SVal.truthy, pyGe, hcount, Bool.and_eq_false_iff]
        right
        simp only [decide_eq_false_iff_not, not_le]
        exact_mod_cast Nat.lt_of_not_le hc
      have heq : item_scraped s x =
          { s with currentChunk := s.currentChunk ++ [x],
                   itemcount := s.itemcount + 1 } := by
        simp [item_scraped, hrot]
      rw [heq, ih _ (by simp [hipc]) (by simp [hcount])]
      rw [chunkAux_cons, if_neg hc]

theorem flatten_chunkAux (t : Nat) (xs : List α) :
    ∀ cur : List α, (chunkAux t cur xs).flatten = cur ++ xs := by
  induction xs with
  | nil => intro cur; simp [chunkAux]
  | cons x xs ih =>
    intro cur
    rw [chunkAux_cons]
    split
    · simp [ih]
    · simp [ih]

theorem length_chunkAux (t : Nat) (ht : 1 ≤ t) (xs : List α) :
    ∀ cur : List α, 1 ≤ cur.length → cur.length ≤ t →
    (chunkAux t cur xs).length = 1 + (cur.length + xs.length - 1) / t := by
  induction xs with
  | nil =>
    intro cur h1 h2
    have hlt : cur.length - 1 < t := by omega
    simp [chunkAux, Nat.div_eq_of_lt hlt]
  | cons x xs ih =>
    intro cur h1 h2
    rw [chunkAux_cons]
    by_cases hc : t ≤ cur.length
    · have hcur : cur.length = t := Nat.le_antisymm h2 hc
      rw [if_pos hc]
      simp only [List.length_cons]
      rw [ih [x] (by simp) (by simpa using ht)]
      simp only [List.length_singleton, List.length_cons, List.length_nil, hcur]
      have e1 : 0 + 1 + xs.length - 1 = xs.length := by omega
      have e2 : t + (xs.length + 1) - 1 = xs.length + t := by omega
      rw [e1, e2, Nat.add_div_right _ (by omega)]
      ring
    · rw [if_neg hc]
      rw [ih (cur ++ [x]) (by simp) (by simp; omega)]
      simp only [List.length_append, List.length_cons, List.length_nil]
      have e : cur.length + (0 + 1) + xs.length - 1 = cur.length + (xs.length + 1) - 1 := by
        omega
      rw [e]

theorem dropLast_chunkAux (t : Nat) (ht : 1 ≤ t) (xs : List α) :
    ∀ cur : List α, cur.length ≤ t →
    ∀ l ∈ (chunkAux t cur xs).dropLast, l.length = t := by
  induction xs with
  | nil => intro cur h l hl; simp [chunkAux] at hl
  | cons x xs ih =>
    intro cur h l hl
    rw [chunkAux_cons] at hl
    by_cases hc : t ≤ cur.length
    · rw [if_pos hc, List.dropLast_cons_of_ne_nil (chunkAux_ne_nil t [x] xs)] at hl
      rcases List.mem_cons.mp hl with hl | hl
      · rw [hl]; omega
      · have hxt : ([x] : List α).length ≤ t := by
          simp only [List.length_singleton]
          omega
        exact ih [x] hxt l hl
    · rw [if_neg hc] at hl
      have hct : (cur ++ [x]).length ≤ t := by
        simp only [List.length_append, List.length_singleton]
        omega
      exact ih (cur ++ [x]) hct l hl

theorem getLastD_cons_default (a : α) (l : List α) (d1 d2 : α) :
    (a :: l).getLastD d1 = (a :: l).getLastD d2 := by
  rw [List.getLastD_cons, List.getLastD_cons]

theorem getLastD_chunkAux (t : Nat) (ht : 1 ≤ t) (xs : List α) :
    ∀ cur : List α, 1 ≤ cur.length → cur.length ≤ t →
    ((chunkAux t cur xs).getLastD []).length = (cur.length + xs.length - 1) % t + 1 := by
  induction xs with
  | nil =>
    intro cur h1 h2
    have hlt : cur.length - 1 < t := by omega
    simp [chunkAux, Nat.mod_eq_of_lt hlt]
    omega
  | cons x xs ih =>
    intro cur h1 h2
    rw [chunkAux_cons]
    by_cases hc : t ≤ cur.length
    · have hcur : cur.length = t := Nat.le_antisymm h2 hc
      rw [if_pos hc]
      have hne := chunkAux_ne_nil t [x] xs
      rw [List.getLastD_cons]
      have hlast : (chunkAux t [x] xs).getLastD cur = (chunkAux t [x] xs).getLastD [] := by
        cases hcs : chunkAux t [x] xs with
        | nil => exact absurd hcs hne
        | cons c cs => exact getLastD_cons_default c cs cur []
      rw [hlast, ih [x] (by simp) (by simpa using ht)]
      simp only [List.length_singleton, List.length_cons, List.length_nil, hcur]
      have e1 : 0 + 1 + xs.length - 1 = xs.length := by omega
      have e2 : t + (xs.length + 1) - 1 = xs.length + t := by omega
      rw [e1, e2, Nat.add_mod_right]
    · rw [if_neg hc]
      rw [ih (cur ++ [x]) (by simp) (by simp; omega)]
      simp only [List.length_append, List.length_cons, List.length_nil]
      have e : cur.length + (0 + 1) + xs.length - 1 = cur.length + (xs.length + 1) - 1 := by
        omega
      rw [e]

/-- Bridge: a run over at least one record with integer threshold `t ≥ 1`
produces exactly the chunks of `chunkAux t [x] xs`, numbered from 1. -/
theorem runExport_cons (t : Nat) (ht : 1 ≤ t) (x : α) (xs : List α) :
    runExport (.vint (t : Int)) (x :: xs) = numberFrom 1 (chunkAux t [x] xs) := by
  have h0 := closeSpider_processAll t ht (x :: xs)
    (initialState (.vint (t : Int))) rfl rfl
  rw [runExport, h0]
  simp only [initialState]
  rw [chunkAux_cons, if_neg (by simp; omega)]
  simp

/-! ### Claim theorems for the run semantics -/

/-- C1 (amended to runs with at least one record): for every n ≥ 1 records
and threshold t > 0, the run yields exactly ceil(n/t) chunks, every chunk
before the last holds exactly t records, and the last chunk holds
n - t*(ceil(n/t)-1) records, a value in [1, t].  (A zero-record run still
produces one empty chunk, see the counterexample.) -/
theorem partition_property (t : Nat) (ht : 0 < t) (items : List α)
    (hne : items ≠ []) :
    (runExport (.vint (t : Int)) items).length = (items.length + t - 1) / t ∧
    (∀ l ∈ ((runExport (.vint (t : Int)) items).map Prod.snd).dropLast,
      l.length = t) ∧
    (((runExport (.vint (t : Int)) items).map Prod.snd).getLastD []).length
      = items.length - t * ((runExport (.vint (t : Int)) items).length - 1) ∧
    1 ≤ (((runExport (.vint (t : Int)) items).map Prod.snd).getLastD []).length ∧
    (((runExport (.vint (t : Int)) items).map Prod.snd).getLastD []).length ≤ t := by
  obtain ⟨x, xs, rfl⟩ : ∃ y ys, items = y :: ys := by
    cases items with
    | nil => exact absurd rfl hne
    | cons y ys => exact ⟨y, ys, rfl⟩
  have ht1 : 1 ≤ t := ht
  have hcs1 : 1 ≤ ([x] : List α).length := by simp
  have hcst : ([x] : List α).length ≤ t := by
    simp only [List.length_singleton]
    omega
  have hlen : (runExport (.vint (t : Int)) (x :: xs)).length = xs.length / t + 1 := by
    rw [runExport_cons t ht1, length_numberFrom, length_chunkAux t ht1 xs [x] hcs1 hcst]
    simp only [List.length_singleton]
    have e1 : 1 + xs.length - 1 = xs.length := by omega
    rw [e1]
    ring
  have hceil : ((x :: xs).length + t - 1) / t = xs.length / t + 1 := by
    simp only [List.length_cons]
    have e : xs.length + 1 + t - 1 = xs.length + t := by omega
    rw [e, Nat.add_div_right _ ht]
  have hmap : (runExport (.vint (t : Int)) (x :: xs)).map Prod.snd
      = chunkAux t [x] xs := by
    rw [runExport_cons t ht1, map_snd_numberFrom]
  have hlast : ((chunkAux t [x] xs).getLastD []).length = xs.length % t + 1 := by
    rw [getLastD_chunkAux t ht1 xs [x] hcs1 hcst]
    simp only [List.length_singleton]
    have e1 : 1 + xs.length - 1 = xs.length := by omega
    rw [e1]
  have hmlt : xs.length % t < t := Nat.mod_lt _ ht
  refine ⟨by rw [hlen, hceil], ?_, ?_, ?_, ?_⟩
  · intro l hl
    rw [hmap] at hl
    exact dropLast_chunkAux t ht1 xs [x] hcst l hl
  · rw [hmap, hlast, hlen]
    simp only [List.length_cons, Nat.add_sub_cancel]
    have hdm := Nat.div_add_mod xs.length t
    generalize hq : t * (xs.length / t) = q at hdm ⊢
    generalize hr : xs.length % t = r at hdm hmlt ⊢
    omega
  · rw [hmap, hlast]
    omega
  · rw [hmap, hlast]
    omega

/-- C1 counterexample: with threshold 1 and zero records the code still
produces one (empty) chunk, while the claim demands ceil(0/1) = 0 chunks. -/
theorem partition_property_fails_for_zero_records :
    ¬ ((runExport (SVal.vint 1) ([] : List Nat)).length
        = (List.length ([] : List Nat) + 1 - 1) / 1) := by
  decide

/-- C1 witness: the amended partition property evaluated at threshold 2 and
the three-record input [0, 1, 2]. -/
theorem partition_property_witness :
    0 < 2 ∧ ([0, 1, 2] : List Nat) ≠ [] ∧
    ((runExport (.vint (2 : Int)) ([0, 1, 2] : List Nat)).length
        = (([0, 1, 2] : List Nat).length + 2 - 1) / 2 ∧
      (∀ l ∈ ((runExport (.vint (2 : Int)) ([0, 1, 2] : List Nat)).map
          Prod.snd).dropLast, l.length = 2) ∧
      (((runExport (.vint (2 : Int)) ([0, 1, 2] : List Nat)).map
          Prod.snd).getLastD []).length
        = ([0, 1, 2] : List Nat).length
          - 2 * ((runExport (.vint (2 : Int)) ([0, 1, 2] : List Nat)).length - 1) ∧
      1 ≤ (((runExport (.vint (2 : Int)) ([0, 1, 2] : List Nat)).map
          Prod.snd).getLastD []).length ∧
      (((runExport (.vint (2 : Int)) ([0, 1, 2] : List Nat)).map
          Prod.snd).getLastD []).length ≤ 2) :=
  ⟨by decide, by decide, partition_property 2 (by decide) [0, 1, 2] (by decide)⟩

/-- C3 (amended to runs with at least one record): for n ≥ 1 records and
threshold t > 0 the chunk numbers assigned across the run are exactly
1, 2, ..., ceil(n/t): strictly increasing, no gaps, no reuse, never reset.
(A zero-record run has the single chunk number 1, see the counterexample.) -/
theorem monotonic_chunk_numbering (t : Nat) (ht : 0 < t) (items : List α)
    (hne : items ≠ []) :
    (runExport (.vint (t : Int)) items).map Prod.fst
      = List.range' 1 ((items.length + t - 1) / t) := by
  obtain ⟨x, xs, rfl⟩ : ∃ y ys, items = y :: ys := by
    cases items with
    | nil => exact absurd rfl hne
    | cons y ys => exact ⟨y, ys, rfl⟩
  have ht1 : 1 ≤ t := ht
  have hcs1 : 1 ≤ ([x] : List α).length := by simp
  have hcst : ([x] : List α).length ≤ t := by
    simp only [List.length_singleton]
    omega
  rw [runExport_cons t ht1, map_fst_numberFrom,
    length_chunkAux t ht1 xs [x] hcs1 hcst]
  simp only [List.length_singleton, List.length_cons, List.length_nil]
  have e1 : 0 + 1 + xs.length - 1 = xs.length := by omega
  have e2 : xs.length + 1 + t - 1 = xs.length + t := by omega
  rw [e1, e2, Nat.add_div_right _ ht]
  have e3 : 1 + xs.length / t = xs.length / t + 1 := by omega
  rw [e3]

/-- C3 counterexample: a zero-record run assigns the chunk number 1 to the
single chunk it produces, while the claim demands the empty sequence
1..ceil(0/t). -/
theorem monotonic_chunk_numbering_fails_for_zero_records :
    ¬ ((runExport (SVal.vint 2) ([] : List Nat)).map Prod.fst
        = List.range' 1 ((List.length ([] : List Nat) + 2 - 1) / 2)) := by
  decide

/-- C3 witness: the amended numbering property at threshold 2 and the
five-record input [0, 1, 2, 3, 4]: chunk numbers [1, 2, 3]. -/
theorem monotonic_chunk_numbering_witness :
    0 < 2 ∧ ([0, 1, 2, 3, 4] : List Nat) ≠ [] ∧
    (runExport (.vint (2 : Int)) ([0, 1, 2, 3, 4] : List Nat)).map Prod.fst
      = List.range' 1 ((([0, 1, 2, 3, 4] : List Nat).length + 2 - 1) / 2) :=
  ⟨by decide, by decide,
    monotonic_chunk_numbering 2 (by decide) [0, 1, 2, 3, 4] (by decide)⟩

/-- All records ever forwarded to a sink, in order: those in closed chunks
followed by those in the open one. -/
def exportedContents (s : ExporterState α) : List α :=
  (s.closedChunks.map Prod.snd).flatten ++ s.currentChunk

theorem exportedContents_item_scraped (s : ExporterState α) (x : α) :
    exportedContents (item_scraped s x) = exportedContents s ++ [x] := by
  by_cases h : rotationDue s
  · simp [item_scraped, h, resetExporter, exportedContents, List.append_assoc]
  · simp [item_scraped, h, exportedContents, List.append_assoc]

theorem exportedContents_processAll (xs : List α) :
    ∀ s : ExporterState α, exportedContents (processAll s xs)
      = exportedContents s ++ xs := by
  induction xs with
  | nil => intro s; simp [processAll]
  | cons x xs ih =>
    intro s
    have hstep : processAll s (x :: xs) = processAll (item_scraped s x) xs := rfl
    rw [hstep, ih, exportedContents_item_scraped]
    simp [List.append_assoc]

/-- C2: whatever the threshold value, the concatenation of the chunks of a
run, in production order, is exactly the input sequence: every submitted
record lands in exactly one chunk, once, in submission order. -/
theorem no_cross_chunk_leakage (ipc : SVal) (items : List α) :
    ((runExport ipc items).map Prod.snd).flatten = items := by
  have h1 : ((closeSpider (processAll (initialState ipc) items)).map
        Prod.snd).flatten
      = exportedContents (processAll (initialState ipc) items) := by
    simp [closeSpider, exportedContents]
  rw [runExport, h1, exportedContents_processAll]
  simp [exportedContents, initialState]

/-- C4: with an integer threshold t, one `item_scraped` call rotates
(closes the current chunk under its number, advances the chunk number by
one, opens a fresh chunk) if and only if t is truthy (nonzero) and the
current slot count has reached t; the rotation happens before the
triggering record is written, so that record opens the new chunk, and
otherwise the state changes only by appending the record. -/
theorem rotation_exactly_at_threshold (s : ExporterState α) (t : Int) (x : α)
    (hipc : s.itemsPerChunk = .vint t) :
    (((item_scraped s x).chunkNumber = s.chunkNumber + 1)
        ↔ (t ≠ 0 ∧ t ≤ (s.itemcount : Int))) ∧
    ((t ≠ 0 ∧ t ≤ (s.itemcount : Int)) →
      item_scraped s x =
        { s with chunkNumber := s.chunkNumber + 1,
                 closedChunks := s.closedChunks ++ [(s.chunkNumber, s.currentChunk)],
                 currentChunk := [x], itemcount := 1 }) ∧
    (¬ (t ≠ 0 ∧ t ≤ (s.itemcount : Int)) →
      item_scraped s x =
        { s with currentChunk := s.currentChunk ++ [x],
                 itemcount := s.itemcount + 1 }) := by
  have hdue : rotationDue s = true ↔ (t ≠ 0 ∧ t ≤ (s.itemcount : Int)) := by
    simp [rotationDue, hipc, SVal.truthy, pyGe]
  by_cases hc : t ≠ 0 ∧ t ≤ (s.itemcount : Int)
  · have hr : rotationDue s = true := hdue.mpr hc
    refine ⟨?_, fun _ => ?_, fun hn => absurd hc hn⟩
    · exact iff_of_true (by simp [item_scraped, hr, resetExporter]) hc
    · simp [item_scraped, hr, resetExporter]
  · have hr : rotationDue s = false := by
      rw [Bool.eq_false_iff]
      intro hcontra
      exact hc (hdue.mp hcontra)
    refine ⟨?_, fun hcc => absurd hcc hc, fun _ => ?_⟩
    · simp only [item_scraped, hr, if_false, Bool.false_eq_true]
      constructor
      · intro habs
        simp at habs
      · intro hcc
        exact absurd hcc hc
    · simp [item_scraped, hr]

/-- A concrete exporter state with threshold 2 holding 2 records, used to
exercise the rotation condition. -/
def fullChunkState : ExporterState Nat :=
  { initialState (SVal.vint 2) with itemcount := 2, currentChunk := [7, 8] }

/-- C4 witness: on `fullChunkState` the next record triggers a rotation and
itself opens chunk 2. -/
theorem rotation_exactly_at_threshold_witness :
    (fullChunkState.itemsPerChunk = .vint 2) ∧
    ((((item_scraped fullChunkState 9).chunkNumber
        = fullChunkState.chunkNumber + 1)
        ↔ ((2 : Int) ≠ 0 ∧ (2 : Int) ≤ (fullChunkState.itemcount : Int))) ∧
      (((2 : Int) ≠ 0 ∧ (2 : Int) ≤ (fullChunkState.itemcount : Int)) →
        item_scraped fullChunkState 9 =
          { fullChunkState with
            chunkNumber := fullChunkState.chunkNumber + 1,
            closedChunks := fullChunkState.closedChunks
              ++ [(fullChunkState.chunkNumber, fullChunkState.currentChunk)],
            currentChunk := [9], itemcount := 1 }) ∧
      (¬ ((2 : Int) ≠ 0 ∧ (2 : Int) ≤ (fullChunkState.itemcount : Int)) →
        item_scraped fullChunkState 9 =
          { fullChunkState with
            currentChunk := fullChunkState.currentChunk ++ [9],
            itemcount := fullChunkState.itemcount + 1 })) :=
  ⟨rfl, rotation_exactly_at_threshold fullChunkState 2 9 rfl⟩

/-- C9: a run that starts and finishes without any submitted record never
rotates: it produces exactly the one initially opened chunk (empty, with
chunk number 1), hence never more than one chunk. -/
theorem zero_record_run (ipc : SVal) :
    runExport ipc ([] : List α) = [(1, [])] ∧
    (runExport ipc ([] : List α)).length ≤ 1 :=
  ⟨rfl, Nat.le_refl 1⟩

/-! ### Settings and heap lemmas -/

theorem lookupKey_set_self (s : Settings) (name : String) (v : SVal) :
    lookupKey (Settings.set s name v) name = some v := by
  simp [Settings.set, lookupKey]

theorem lookupKey_filter_ne (name name' : String) (hne : name' ≠ name) :
    ∀ s : Settings, lookupKey (s.filter (fun p => p.1 != name)) name'
      = lookupKey s name' := by
  intro s
  induction s with
  | nil => rfl
  | cons a s ih =>
    obtain ⟨k, v⟩ := a
    rw [List.filter_cons]
    by_cases hk : k = name
    · simp only [hk, bne_self_eq_false, Bool.false_eq_true, if_false]
      rw [ih, lookupKey, if_neg (fun hh => hne hh.symm)]
    · have hcond : (k != name) = true := by simp [hk]
      simp only [hcond, if_true]
      rw [lookupKey, lookupKey]
      by_cases hk' : k = name'
      · rw [if_pos hk', if_pos hk']
      · rw [if_neg hk', if_neg hk', ih]

theorem lookupKey_set_ne (s : Settings) (name name' : String) (v : SVal)
    (hne : name' ≠ name) :
    lookupKey (Settings.set s name v) name' = lookupKey s name' := by
  rw [Settings.set, lookupKey, if_neg (Ne.symm hne),
    lookupKey_filter_ne name name' hne]

theorem get_set_ne (s : Settings) (name name' : String) (v d : SVal)
    (hne : name' ≠ name) :
    Settings.get (Settings.set s name v) name' d = Settings.get s name' d := by
  rw [Settings.get, Settings.get, lookupKey_set_ne s name name' v hne]

theorem getRef_append (h : Heap) (s : Settings) :
    Heap.getRef (h ++ [s]) h.length = s := by
  induction h with
  | nil => rfl
  | cons a h ih => exact ih

theorem getRef_setRef_append (h : Heap) (s s2 : Settings) (r : Nat)
    (hr : r < h.length) :
    Heap.getRef (Heap.setRef (h ++ [s]) h.length s2) r = Heap.getRef h r := by
  induction h generalizing r with
  | nil => exact absurd hr (by simp)
  | cons a h ih =>
    cases r with
    | zero => rfl
    | succ r => exact ih r (by simpa using Nat.lt_of_succ_lt_succ hr)

/-- C5 (amended): construction raises `NotConfigured` exactly when one of
the three chunked settings is falsy (unset, `None`, `0`, or the empty
string); a negative items-per-chunk value is truthy, so it is accepted and
construction proceeds.  On failure no exporter state is produced (no slot
is ever opened: `open_spider` runs only after a successful `__init__`). -/
theorem config_gate (h : Heap) (r : Nat) (env : List (String × String)) :
    exceptIsOk (initExporter (α := Nat) h r env) =
      ((Settings.get (Heap.getRef h r) "CHUNKED_FEED_URI" .vnone).truthy &&
       (Settings.get (Heap.getRef h r) "CHUNKED_FEED_FORMAT" .vnone).truthy &&
       (Settings.get (Heap.getRef h r) "CHUNKED_FEED_ITEMS_PER_CHUNK" .vnone).truthy) := by
  have hcopy : Heap.getRef ((deepcopy h r).1) ((deepcopy h r).2)
      = Heap.getRef h r := by
    simp only [deepcopy]
    exact getRef_append h (Heap.getRef h r)
  rw [initExporter]
  simp only [hcopy, getFromSettingsOrNotConfigured]
  cases h1 : (Settings.get (Heap.getRef h r) "CHUNKED_FEED_URI" .vnone).truthy <;>
    cases h2 : (Settings.get (Heap.getRef h r) "CHUNKED_FEED_FORMAT" .vnone).truthy <;>
      cases h3 : (Settings.get (Heap.getRef h r) "CHUNKED_FEED_ITEMS_PER_CHUNK" .vnone).truthy <;>
        simp [h1, h2, h3, exceptIsOk]

/-- Caller settings that are valid except for a negative items-per-chunk. -/
def negativeChunkSettings : Settings :=
  [("CHUNKED_FEED_URI", .vstr "export.json"),
   ("CHUNKED_FEED_FORMAT", .vstr "json"),
   ("CHUNKED_FEED_ITEMS_PER_CHUNK", .vint (-1))]

/-- C5 counterexample: with `CHUNKED_FEED_ITEMS_PER_CHUNK = -1` (and valid
template and format) construction succeeds, contradicting the claim that a
negative items-per-chunk setting raises `NotConfigured`. -/
theorem config_gate_accepts_negative :
    exceptIsOk (initExporter (α := Nat) [negativeChunkSettings] 0 []) = true := by
  rfl

/-- C10: constructing the exporter never mutates the caller's settings
object: `__init__` deep-copies the settings and overrides `FEED_URI` and
`FEED_FORMAT` only on the copy, so every entry of the original object is
unchanged after a successful construction. -/
theorem constructor_frame (h : Heap) (r : Nat) (env : List (String × String))
    (hr : r < h.length) (h2 : Heap) (e : ExporterState Nat)
    (hok : initExporter h r env = .ok (h2, e)) :
    Heap.getRef h2 r = Heap.getRef h r := by
  rw [initExporter] at hok
  split at hok
  · exact absurd hok (by simp)
  · split at hok
    · exact absurd hok (by simp)
    · split at hok
      · exact absurd hok (by simp)
      · simp only [Except.ok.injEq, Prod.mk.injEq] at hok
        rw [← hok.1]
        simp only [deepcopy]
        exact getRef_setRef_append h (Heap.getRef h r) _ r hr

/-- Sample caller settings for exercising construction. -/
def sampleHeap : Heap :=
  [[("CHUNKED_FEED_URI", SVal.vstr "u"), ("CHUNKED_FEED_FORMAT", SVal.vstr "json"),
    ("CHUNKED_FEED_ITEMS_PER_CHUNK", SVal.vint 2), ("SCRAPY_JOB", SVal.vstr "job42")]]

/-- Sample process environment. -/
def sampleEnv : List (String × String) := [("SCRAPY_PROJECT", "proj7")]

/-- The heap after constructing from `sampleHeap`: the caller's object is
untouched; the deep copy carries the `FEED_URI` / `FEED_FORMAT` overrides. -/
def sampleHeapAfter : Heap :=
  [[("CHUNKED_FEED_URI", SVal.vstr "u"), ("CHUNKED_FEED_FORMAT", SVal.vstr "json"),
    ("CHUNKED_FEED_ITEMS_PER_CHUNK", SVal.vint 2), ("SCRAPY_JOB", SVal.vstr "job42")],
   [("FEED_FORMAT", SVal.vstr "json"), ("FEED_URI", SVal.vstr "u"),
    ("CHUNKED_FEED_URI", SVal.vstr "u"), ("CHUNKED_FEED_FORMAT", SVal.vstr "json"),
    ("CHUNKED_FEED_ITEMS_PER_CHUNK", SVal.vint 2), ("SCRAPY_JOB", SVal.vstr "job42")]]

/-- The exporter state produced from `sampleHeap` and `sampleEnv`. -/
def sampleState : ExporterState Nat :=
  { itemsPerChunk := SVal.vint 2
    chunkNumber := 1
    timestampFormat := SVal.vstr "%Y-%m-%d-%H"
    scrapyJob := SVal.vstr "job42"
    scrapyProject := SVal.vstr "proj7"
    scrapyProjectId := SVal.vstr "noprojectid"
    itemcount := 0
    currentChunk := []
    closedChunks := [] }

/-- C10 witness: construction from `sampleHeap` succeeds and the caller's
settings object (index 0) is unchanged. -/
theorem constructor_frame_witness :
    0 < sampleHeap.length ∧
    initExporter sampleHeap 0 sampleEnv = .ok (sampleHeapAfter, sampleState) ∧
    Heap.getRef sampleHeapAfter 0 = Heap.getRef sampleHeap 0 :=
  ⟨by decide, by rfl,
    constructor_frame sampleHeap 0 sampleEnv (by decide) sampleHeapAfter
      sampleState (by rfl)⟩

theorem identity_fields_item_scraped (s : ExporterState α) (x : α) :
    (item_scraped s x).scrapyJob = s.scrapyJob ∧
    (item_scraped s x).scrapyProject = s.scrapyProject ∧
    (item_scraped s x).scrapyProjectId = s.scrapyProjectId := by
  by_cases h : rotationDue s <;> simp [item_scraped, h, resetExporter]

theorem identity_fields_processAll (xs : List α) :
    ∀ s : ExporterState α,
      (processAll s xs).scrapyJob = s.scrapyJob ∧
      (processAll s xs).scrapyProject = s.scrapyProject ∧
      (processAll s xs).scrapyProjectId = s.scrapyProjectId := by
  induction xs with
  | nil => intro s; exact ⟨rfl, rfl, rfl⟩
  | cons x xs ih =>
    intro s
    have hstep : processAll s (x :: xs) = processAll (item_scraped s x) xs := rfl
    rw [hstep]
    obtain ⟨h1, h2, h3⟩ := ih (item_scraped s x)
    obtain ⟨g1, g2, g3⟩ := identity_fields_item_scraped s x
    exact ⟨h1.trans g1, h2.trans g2, h3.trans g3⟩

theorem lookup_uri_parameters_job (sf : String → String) (s : ExporterState α)
    (params : Settings) :
    lookupKey (get_uri_parameters sf s params) "scrapy_job" = some s.scrapyJob := by
  show lookupKey
    (Settings.set
      (Settings.set
        (Settings.set
          (Settings.set params "chunk_number" (SVal.vint (s.chunkNumber : Int)))
          "scrapy_job" s.scrapyJob)
        "scrapy_project_id" s.scrapyProjectId)
      "timestamp" (SVal.vstr (sf "%Y-%m-%d-%H"))) "scrapy_job"
    = some s.scrapyJob
  rw [lookupKey_set_ne _ _ _ _ (by decide), lookupKey_set_ne _ _ _ _ (by decide),
    lookupKey_set_self]

theorem lookup_uri_parameters_project_id (sf : String → String)
    (s : ExporterState α) (params : Settings) :
    lookupKey (get_uri_parameters sf s params) "scrapy_project_id"
      = some s.scrapyProjectId := by
  show lookupKey
    (Settings.set
      (Settings.set
        (Settings.set
          (Settings.set params "chunk_number" (SVal.vint (s.chunkNumber : Int)))
          "scrapy_job" s.scrapyJob)
        "scrapy_project_id" s.scrapyProjectId)
      "timestamp" (SVal.vstr (sf "%Y-%m-%d-%H"))) "scrapy_project_id"
    = some s.scrapyProjectId
  rw [lookupKey_set_ne _ _ _ _ (by decide), lookupKey_set_self]

/-- C8: the job id and the project ids are sourced exactly once at
construction, from the caller's settings or the environment with the
sentinel defaults "nojob", "noproject" and "noprojectid"; they are never
mutated by any later step of the run, and every parameter mapping built by
`get_uri_parameters` carries exactly these construction-time values. -/
theorem identity_sourced_once (h : Heap) (r : Nat)
    (env : List (String × String)) (h2 : Heap) (e : ExporterState α)
    (hok : initExporter h r env = .ok (h2, e)) :
    (e.scrapyJob = settingsOrEnviron (Heap.getRef h r) env "SCRAPY_JOB" "nojob" ∧
     e.scrapyProject
       = settingsOrEnviron (Heap.getRef h r) env "SCRAPY_PROJECT" "noproject" ∧
     e.scrapyProjectId
       = settingsOrEnviron (Heap.getRef h r) env "SCRAPY_PROJECT_ID" "noprojectid") ∧
    (∀ xs : List α,
      (processAll e xs).scrapyJob = e.scrapyJob ∧
      (processAll e xs).scrapyProject = e.scrapyProject ∧
      (processAll e xs).scrapyProjectId = e.scrapyProjectId) ∧
    (∀ (xs : List α) (sf : String → String) (params : Settings),
      lookupKey (get_uri_parameters sf (processAll e xs) params) "scrapy_job"
        = some e.scrapyJob ∧
      lookupKey (get_uri_parameters sf (processAll e xs) params) "scrapy_project_id"
        = some e.scrapyProjectId) := by
  have hcopy : Heap.getRef ((deepcopy h r).1) ((deepcopy h r).2)
      = Heap.getRef h r := by
    simp only [deepcopy]
    exact getRef_append h (Heap.getRef h r)
  have hsrc : e.scrapyJob
      = settingsOrEnviron (Heap.getRef h r) env "SCRAPY_JOB" "nojob" ∧
      e.scrapyProject
        = settingsOrEnviron (Heap.getRef h r) env "SCRAPY_PROJECT" "noproject" ∧
      e.scrapyProjectId
        = settingsOrEnviron (Heap.getRef h r) env "SCRAPY_PROJECT_ID" "noprojectid" := by
    rw [initExporter] at hok
    split at hok
    · exact absurd hok (by simp)
    · split at hok
      · exact absurd hok (by simp)
      · split at hok
        · exact absurd hok (by simp)
        · simp only [Except.ok.injEq, Prod.mk.injEq] at hok
          rw [← hok.2]
          simp only [hcopy]
          refine ⟨?_, ?_, ?_⟩ <;>
            simp only [settingsOrEnviron] <;>
              rw [get_set_ne _ _ _ _ _ (by decide), get_set_ne _ _ _ _ _ (by decide)]
  refine ⟨hsrc, fun xs => identity_fields_processAll xs e, fun xs sf params => ?_⟩
  obtain ⟨hj, _, hp⟩ := identity_fields_processAll xs e
  constructor
  · rw [lookup_uri_parameters_job, hj]
  · rw [lookup_uri_parameters_project_id, hp]

/-- C8 witness: constructing from `sampleHeap` / `sampleEnv` gives the job
id from the settings, the project from the environment, and the project id
from the sentinel; they survive a three-record run and are carried by the
parameter mapping. -/
theorem identity_sourced_once_witness :
    initExporter sampleHeap 0 sampleEnv = .ok (sampleHeapAfter, sampleState) ∧
    sampleState.scrapyJob
      = settingsOrEnviron (Heap.getRef sampleHeap 0) sampleEnv "SCRAPY_JOB" "nojob" ∧
    (processAll sampleState [5, 6, 7]).scrapyJob = sampleState.scrapyJob ∧
    lookupKey (get_uri_parameters (fun fmt => fmt) (processAll sampleState [5, 6, 7]) [])
        "scrapy_job"
      = some sampleState.scrapyJob :=
  ⟨by rfl,
    (identity_sourced_once sampleHeap 0 sampleEnv sampleHeapAfter sampleState
      (by rfl)).1.1,
    ((identity_sourced_once sampleHeap 0 sampleEnv sampleHeapAfter sampleState
      (by rfl)).2.1 [5, 6, 7]).1,
    ((identity_sourced_once sampleHeap 0 sampleEnv sampleHeapAfter sampleState
      (by rfl)).2.2 [5, 6, 7] (fun fmt => fmt) []).1⟩

/-- A state whose configured timestamp format differs from the default. -/
def customFormatState : ExporterState Nat :=
  { initialState (SVal.vint 1) with timestampFormat := SVal.vstr "%Y" }

/-- C6: `__init__` stores the configured `CHUNKED_FEED_TIMESTAMP_FORMAT`
in `_timestamp_format`, but `get_uri_parameters` never consults it: the
timestamp is rendered with the hard-coded literal format, so a state whose
configured format is "%Y" still yields a timestamp rendered with
"%Y-%m-%d-%H" (here `strftime` is instantiated with the identity, exposing
which format string the code passes to it). -/
theorem timestamp_format_ignored :
    customFormatState.timestampFormat = SVal.vstr "%Y" ∧
    lookupKey (get_uri_parameters (fun fmt => fmt) customFormatState [])
        "timestamp"
      = some (SVal.vstr "%Y-%m-%d-%H") ∧
    ("%Y-%m-%d-%H" : String) ≠ "%Y" :=
  ⟨rfl, by rfl, by decide⟩

/-- C7: address resolution is deterministic: two parameter builds plus
substitutions performed on equal templates, equal clocks (frozen timestamp
renderers), equal states and equal incoming parameter maps produce
identical output. -/
theorem resolver_deterministic (template1 template2 : List TemplatePiece)
    (sf1 sf2 : String → String) (s1 s2 : ExporterState Nat)
    (p1 p2 : Settings) (htemplate : template1 = template2) (hsf : sf1 = sf2)
    (hs : s1 = s2) (hp : p1 = p2) :
    resolve template1 (get_uri_parameters sf1 s1 p1)
      = resolve template2 (get_uri_parameters sf2 s2 p2) := by
  rw [htemplate, hsf, hs, hp]

/-- C7 witness: resolving a concrete template twice over the same frozen
clock and state yields the same address. -/
theorem resolver_deterministic_witness :
    ([TemplatePiece.lit "export_", TemplatePiece.param "chunk_number"]
      = [TemplatePiece.lit "export_", TemplatePiece.param "chunk_number"]) ∧
    ((fun fmt => fmt ++ "|2024") = (fun fmt : String => fmt ++ "|2024")) ∧
    ((initialState (SVal.vint 1) : ExporterState Nat)
      = initialState (SVal.vint 1)) ∧
    (([] : Settings) = ([] : Settings)) ∧
    resolve [TemplatePiece.lit "export_", TemplatePiece.param "chunk_number"]
        (get_uri_parameters (fun fmt => fmt ++ "|2024")
          (initialState (SVal.vint 1) : ExporterState Nat) [])
      = resolve [TemplatePiece.lit "export_", TemplatePiece.param "chunk_number"]
        (get_uri_parameters (fun fmt => fmt ++ "|2024")
          (initialState (SVal.vint 1) : ExporterState Nat) []) :=
  ⟨rfl, rfl, rfl, rfl,
    resolver_deterministic _ _ _ _ _ _ _ _ rfl rfl rfl rfl⟩

end ChunkExports
